import Mathlib

/-!
# Frame transformation utilities of `src/util.cpp`

A shallow embedding of the numeric helpers of `util.cpp`:

* `normalize`            (lines 17-32),
* `offsets_to_frame`     (lines 34-67),
* `transform_frame`      (lines 69-108),
* `velocity_ned_to_body` (lines 110-121),
* `velocity_body_to_ned` (lines 123-134),
* `angle_difference`     (lines 136-149).

The C++ code computes on `float`/`double`.  The embedding is written over an
arbitrary field `α`; the functions `std::sin`, `std::cos` and the constant
`M_PI` of `<math.h>` are arguments of the definitions, so every definition is
an ordinary computable function.  The theorems instantiate `α` with `ℝ`,
`sin`/`cos` with `Real.sin`/`Real.cos` and `M_PI` with `Real.pi`, i.e. they
speak about the code in exact real arithmetic (rounding is not modelled).

Arrays `float[3]` are functions `Fin 3 → α`; an output array written by the
C++ function is the value returned by the Lean function.
-/

namespace Mec

/-- A C array `float v[3]`. -/
abbrev Vec3 (α : Type) := Fin 3 → α

/-- The type `Matrix<float, 3, 3>` of the matrix library. -/
abbrev Mat3 (α : Type) := Matrix (Fin 3) (Fin 3) α

/-- The struct `mec_vehicle_velocity` (NED velocity), as far as `util.cpp` reads it. -/
structure mec_vehicle_velocity (α : Type) where
  north_m_s : α
  east_m_s : α
  down_m_s : α

/-- The struct `mec_vehicle_velocity_body` (body velocity), as far as `util.cpp` writes it. -/
structure mec_vehicle_velocity_body (α : Type) where
  forward_m_s : α
  right_m_s : α
  down_m_s : α

/-- The struct `mec_vehicle_attitude`, as far as `util.cpp` reads it. -/
structure mec_vehicle_attitude (α : Type) where
  roll : α
  pitch : α
  yaw : α

section Definitions

variable {α : Type}

/-- The function `normalize` (util.cpp:17-32): both clamping `if`s, then
`zero`, the unused `mag`, and `value += zero`. -/
def normalize [LinearOrderedField α] (value min max : α) : α :=
  let value := if value < min then min else value
  let value := if value > max then max else value
  let zero := (max + min) / 2
  let _mag := (max - min) / 2
  let value := value + zero
  value

/-- The nine entries `r11 .. r33` computed in `offsets_to_frame`
(util.cpp:45-61), laid out as the 3x3 matrix they are named after. -/
def offsets_to_frame_matrix [Field α] (sin cos : α → α) (angles : Vec3 α) : Mat3 α :=
  let sphi := sin (angles 0)
  let sthe := sin (angles 1)
  let spsi := sin (angles 2)
  let cphi := cos (angles 0)
  let cthe := cos (angles 1)
  let cpsi := cos (angles 2)
  let r11 := cthe * cpsi
  let r12 := -cphi * spsi + sphi * sthe * cpsi
  let r13 := -sphi * spsi + cphi * sthe * cpsi
  let r21 := cthe * spsi
  let r22 := cphi * cpsi + sphi * sthe * spsi
  let r23 := sphi * cpsi + cphi * sthe * spsi
  let r31 := -sthe
  let r32 := sphi * cthe
  let r33 := cphi * cthe
  !![r11, r12, r13; r21, r22, r23; r31, r32, r33]

/-- The function `offsets_to_frame` (util.cpp:34-67); the result is the array
`output`. -/
def offsets_to_frame [Field α] (sin cos : α → α) (input angles : Vec3 α) : Vec3 α :=
  let sphi := sin (angles 0)
  let sthe := sin (angles 1)
  let spsi := sin (angles 2)
  let cphi := cos (angles 0)
  let cthe := cos (angles 1)
  let cpsi := cos (angles 2)
  let r11 := cthe * cpsi
  let r12 := -cphi * spsi + sphi * sthe * cpsi
  let r13 := -sphi * spsi + cphi * sthe * cpsi
  let r21 := cthe * spsi
  let r22 := cphi * cpsi + sphi * sthe * spsi
  let r23 := sphi * cpsi + cphi * sthe * spsi
  let r31 := -sthe
  let r32 := sphi * cthe
  let r33 := cphi * cthe
  ![r11 * input 0 + r12 * input 1 + r13 * input 2,
    r21 * input 0 + r22 * input 1 + r23 * input 2,
    r31 * input 0 + r32 * input 1 + r33 * input 2]

/-- The array `xrot_arr` of `transform_frame` (util.cpp:72-77); it reads `angle[1]`. -/
def xrot_arr [Field α] (sin cos : α → α) (angle : Vec3 α) : Mat3 α :=
  !![1, 0, 0;
     0, cos (angle 1), -sin (angle 1);
     0, sin (angle 1), cos (angle 1)]

/-- The array `yrot_arr` of `transform_frame` (util.cpp:79-84); it reads `angle[0]`. -/
def yrot_arr [Field α] (sin cos : α → α) (angle : Vec3 α) : Mat3 α :=
  !![cos (angle 0), 0, sin (angle 0);
     0, 1, 0;
     -sin (angle 0), 0, cos (angle 0)]

/-- The array `zrot_arr` of `transform_frame` (util.cpp:86-91); it reads `angle[2]`. -/
def zrot_arr [Field α] (sin cos : α → α) (angle : Vec3 α) : Mat3 α :=
  !![cos (angle 2), -sin (angle 2), 0;
     sin (angle 2), cos (angle 2), 0;
     0, 0, 1]

/-- The matrix `xrot * yrot * zrot` that `transform_frame` applies (util.cpp:104). -/
def transform_frame_matrix [Field α] (sin cos : α → α) (angle : Vec3 α) : Mat3 α :=
  xrot_arr sin cos angle * yrot_arr sin cos angle * zrot_arr sin cos angle

/-- The function `transform_frame` (util.cpp:69-108); the result is the array
`frame2`.  The operator `*` of the matrix library is the matrix product. -/
def transform_frame [Field α] (sin cos : α → α) (frame1 angle : Vec3 α) : Vec3 α :=
  let xrot : Mat3 α := xrot_arr sin cos angle
  let yrot : Mat3 α := yrot_arr sin cos angle
  let zrot : Mat3 α := zrot_arr sin cos angle
  let vec_1 : Vec3 α := ![frame1 0, frame1 1, frame1 2]
  let vec_2 : Vec3 α := Matrix.mulVec (xrot * yrot * zrot) vec_1
  ![vec_2 0, vec_2 1, vec_2 2]

/-- The function `velocity_ned_to_body` (util.cpp:110-121); the result is the
struct written through `body`. -/
def velocity_ned_to_body [Field α] (sin cos : α → α)
    (ned : mec_vehicle_velocity α) (att : mec_vehicle_attitude α) :
    mec_vehicle_velocity_body α :=
  let ned_velocities : Vec3 α := ![ned.north_m_s, ned.east_m_s, ned.down_m_s]
  let angle : Vec3 α := ![-att.roll, -att.pitch, -att.yaw]
  let body_velocities := offsets_to_frame sin cos ned_velocities angle
  ⟨body_velocities 0, body_velocities 1, body_velocities 2⟩

/-- The function `velocity_body_to_ned` (util.cpp:123-134); the result is the
struct written through `ned`. -/
def velocity_body_to_ned [Field α] (sin cos : α → α)
    (body : mec_vehicle_velocity_body α) (att : mec_vehicle_attitude α) :
    mec_vehicle_velocity α :=
  let body_velocities : Vec3 α := ![body.forward_m_s, body.right_m_s, body.down_m_s]
  let angle : Vec3 α := ![att.roll, att.pitch, att.yaw]
  let ned_velocities := offsets_to_frame sin cos body_velocities angle
  ⟨ned_velocities 0, ned_velocities 1, ned_velocities 2⟩

/-- The function `angle_difference` (util.cpp:136-149); `M_PI` is the constant
of `<math.h>`. -/
def angle_difference [LinearOrderedField α] (M_PI : α) (a1 a2 : α) : α :=
  let b1 := a1 - a2
  if |b1| > M_PI then
    if a1 < a2 then
      let a1 := a1 + 2 * M_PI
      a1 - a2
    else
      let a2 := a2 + 2 * M_PI
      a1 - a2
  else
    b1

end Definitions

/-! ## Single-axis rotations as the specification writes them -/

section SpecRotations

variable {α : Type}

/-- The standard rotation about the x axis, `[[1,0,0],[0,cos a,-sin a],[0,sin a,cos a]]`. -/
def spec_Rx [Field α] (sin cos : α → α) (a : α) : Mat3 α :=
  !![1, 0, 0; 0, cos a, -sin a; 0, sin a, cos a]

/-- The standard rotation about the y axis, `[[cos a,0,sin a],[0,1,0],[-sin a,0,cos a]]`. -/
def spec_Ry [Field α] (sin cos : α → α) (a : α) : Mat3 α :=
  !![cos a, 0, sin a; 0, 1, 0; -sin a, 0, cos a]

/-- The standard rotation about the z axis, `[[cos a,-sin a,0],[sin a,cos a,0],[0,0,1]]`. -/
def spec_Rz [Field α] (sin cos : α → α) (a : α) : Mat3 α :=
  !![cos a, -sin a, 0; sin a, cos a, 0; 0, 0, 1]

/-- The combined rotation `Rz(yaw) * Ry(pitch) * Rx(roll)` for `angles = (roll, pitch, yaw)`. -/
def spec_rotation [Field α] (sin cos : α → α) (angles : Vec3 α) : Mat3 α :=
  spec_Rz sin cos (angles 2) * spec_Ry sin cos (angles 1) * spec_Rx sin cos (angles 0)

end SpecRotations

/-! ## The clamp as the specification writes it -/

/-- The clamp of `value` into `[min, max]`: `min` if `value < min`, `max` if
`value > max`, else `value`. -/
def spec_clamp {α : Type} [LinearOrderedField α] (value min max : α) : α :=
  if value < min then min else if value > max then max else value

/-! ## Basic facts about the embedding -/

/-- The output of `offsets_to_frame` is the matrix of its nine entries times the input. -/
theorem offsets_to_frame_eq_mulVec {α : Type} [Field α] (sin cos : α → α)
    (input angles : Vec3 α) :
    offsets_to_frame sin cos input angles
      = Matrix.mulVec (offsets_to_frame_matrix sin cos angles) input := by
  funext i
  fin_cases i <;>
    simp [offsets_to_frame, offsets_to_frame_matrix, Matrix.mulVec, Matrix.dotProduct,
      Fin.sum_univ_three]

/-- The entries of the closed-form matrix and of `Rz * Ry * Rx` differ exactly in
`r13` and `r23`, by twice the term that carries the sine of the roll angle. -/
theorem offsets_to_frame_matrix_sub_spec (angles : Vec3 ℝ) :
    offsets_to_frame_matrix Real.sin Real.cos angles - spec_rotation Real.sin Real.cos angles
      = !![0, 0, -(2 * (Real.sin (angles 0) * Real.sin (angles 2)));
           0, 0, 2 * (Real.sin (angles 0) * Real.cos (angles 2));
           0, 0, 0] := by
  simp only [offsets_to_frame_matrix, spec_rotation, spec_Rx, spec_Ry, spec_Rz,
    Matrix.mul_fin_three]
  rw [← Matrix.ext_iff]
  simp [Fin.forall_fin_succ]
  and_intros <;> ring

/-- The three branches of `angle_difference`, named by the raw difference `a1 - a2`:
below `-π` one turn is added, above `π` one turn is removed, otherwise it is returned. -/
theorem angle_difference_cases (a1 a2 : ℝ) :
    (a1 - a2 < -Real.pi ∧ angle_difference Real.pi a1 a2 = a1 - a2 + 2 * Real.pi)
      ∨ (Real.pi < a1 - a2 ∧ angle_difference Real.pi a1 a2 = a1 - a2 - 2 * Real.pi)
      ∨ (-Real.pi ≤ a1 - a2 ∧ a1 - a2 ≤ Real.pi
          ∧ angle_difference Real.pi a1 a2 = a1 - a2) := by
  have hpi := Real.pi_pos
  unfold angle_difference
  by_cases h1 : |a1 - a2| > Real.pi
  · by_cases h2 : a1 < a2
    · left
      have hd : a1 - a2 < -Real.pi := by
        rcases lt_abs.mp h1 with h | h <;> linarith
      refine ⟨hd, ?_⟩
      simp only [h1, h2, if_true]
      ring
    · right; left
      have hd : Real.pi < a1 - a2 := by
        rcases lt_abs.mp h1 with h | h
        · exact h
        · linarith [not_lt.mp h2]
      refine ⟨hd, ?_⟩
      simp only [h1, h2, if_true, if_false]
      ring
  · right; right
    have hd := abs_le.mp (not_lt.mp h1)
    refine ⟨hd.1, hd.2, ?_⟩
    simp only [h1, if_false]

/-! ## Frame conversion and the closed-form matrix -/

/-- C1, evaluated on the code: with attitude roll = π/2, pitch = yaw = 0 the round trip
NED -> body -> NED of the velocity (north, east, down) = (0, 1, 0) returns (0, -1, 0),
which is not the velocity it started from. -/
theorem round_trip_quarter_turn_roll :
    velocity_body_to_ned Real.sin Real.cos
        (velocity_ned_to_body Real.sin Real.cos ⟨0, 1, 0⟩ ⟨Real.pi / 2, 0, 0⟩)
        ⟨Real.pi / 2, 0, 0⟩
      = ⟨0, -1, 0⟩
    ∧ velocity_body_to_ned Real.sin Real.cos
        (velocity_ned_to_body Real.sin Real.cos ⟨0, 1, 0⟩ ⟨Real.pi / 2, 0, 0⟩)
        ⟨Real.pi / 2, 0, 0⟩
      ≠ ⟨0, 1, 0⟩ := by
  have e : velocity_body_to_ned Real.sin Real.cos
      (velocity_ned_to_body Real.sin Real.cos ⟨0, 1, 0⟩ ⟨Real.pi / 2, 0, 0⟩)
      ⟨Real.pi / 2, 0, 0⟩ = ⟨0, -1, 0⟩ := by
    simp [velocity_body_to_ned, velocity_ned_to_body, offsets_to_frame]
  refine ⟨e, ?_⟩
  rw [e]
  intro h
  have h1 := congrArg mec_vehicle_velocity.east_m_s h
  norm_num at h1

/-- C2, evaluated on the code: for angles (roll, pitch, yaw) = (π/2, 0, 0) the entry `r23`
built by `offsets_to_frame` is 1 while the entry of `Rz(yaw) * Ry(pitch) * Rx(roll)` in
that place is -1; accordingly the input (0, 0, 1) is sent to (0, 1, 0) by the code and to
(0, -1, 0) by the combined rotation. -/
theorem offsets_to_frame_matrix_quarter_turn_roll :
    offsets_to_frame_matrix Real.sin Real.cos ![Real.pi / 2, 0, 0] 1 2 = 1
      ∧ spec_rotation Real.sin Real.cos ![Real.pi / 2, 0, 0] 1 2 = -1
      ∧ offsets_to_frame Real.sin Real.cos ![0, 0, 1] ![Real.pi / 2, 0, 0] = ![0, 1, 0]
      ∧ Matrix.mulVec (spec_rotation Real.sin Real.cos ![Real.pi / 2, 0, 0]) ![0, 0, 1]
          = ![0, -1, 0] := by
  refine ⟨?_, ?_, ?_, ?_⟩
  · simp [offsets_to_frame_matrix]
  · simp [spec_rotation, spec_Rx, spec_Ry, spec_Rz, Matrix.mul_apply, Fin.sum_univ_three]
  · simp [offsets_to_frame]
  · funext i
    fin_cases i <;>
      simp [spec_rotation, spec_Rx, spec_Ry, spec_Rz, Matrix.mul_fin_three, Matrix.mulVec,
        Matrix.vec3_dotProduct]

/-- C3, evaluated on the code: for angles (roll, pitch, yaw) = (π/4, 0, 0) the matrix `M`
of the entries `r11 .. r33` has determinant 0, the entry (2, 3) of `M * Mᵀ` is 1 instead
of 0, and `offsets_to_frame` sends the input (0, 1, -1), of squared length 2, to the zero
vector. -/
theorem offsets_to_frame_matrix_eighth_turn_roll :
    (offsets_to_frame_matrix Real.sin Real.cos ![Real.pi / 4, 0, 0]).det = 0
      ∧ (offsets_to_frame_matrix Real.sin Real.cos ![Real.pi / 4, 0, 0]
          * (offsets_to_frame_matrix Real.sin Real.cos ![Real.pi / 4, 0, 0]).transpose) 1 2 = 1
      ∧ offsets_to_frame Real.sin Real.cos ![0, 1, -1] ![Real.pi / 4, 0, 0] = ![0, 0, 0] := by
  have h2 : (√2 / 2) * (√2 / 2) = (1 : ℝ) / 2 := by
    have := Real.mul_self_sqrt (show (0 : ℝ) ≤ 2 by norm_num)
    nlinarith
  refine ⟨?_, ?_, ?_⟩
  · simp [offsets_to_frame_matrix, Matrix.det_fin_three]
  · have key : ∀ a : ℝ, (offsets_to_frame_matrix Real.sin Real.cos ![a, 0, 0]
        * (offsets_to_frame_matrix Real.sin Real.cos ![a, 0, 0]).transpose) 1 2
          = 2 * (Real.sin a * Real.cos a) := by
      intro a
      rw [Matrix.mul_apply]
      simp only [Fin.sum_univ_three, Matrix.transpose_apply]
      simp [offsets_to_frame_matrix]
      ring
    rw [key, Real.sin_pi_div_four, Real.cos_pi_div_four, h2]
    norm_num
  · simp [offsets_to_frame]

/-! ## Angle difference -/

/-- C5: the wrap rule of `angle_difference`.  If `|a1 - a2| ≤ π` the raw difference is
returned; if `|a1 - a2| > π` and `a1 < a2` the result is `(a1 + 2π) - a2`; if
`|a1 - a2| > π` and `a1 ≥ a2` the result is `a1 - (a2 + 2π)`.  In particular
`angle_difference 0 0 = 0`, `angle_difference (π/2) 0 = π/2` and
`angle_difference (-3π/4) (3π/4) = π/2`. -/
theorem angle_difference_wrap_rule :
    (∀ a1 a2 : ℝ, |a1 - a2| ≤ Real.pi → angle_difference Real.pi a1 a2 = a1 - a2)
      ∧ (∀ a1 a2 : ℝ, |a1 - a2| > Real.pi → a1 < a2 →
          angle_difference Real.pi a1 a2 = (a1 + 2 * Real.pi) - a2)
      ∧ (∀ a1 a2 : ℝ, |a1 - a2| > Real.pi → a1 ≥ a2 →
          angle_difference Real.pi a1 a2 = a1 - (a2 + 2 * Real.pi))
      ∧ angle_difference Real.pi 0 0 = 0
      ∧ angle_difference Real.pi (Real.pi / 2) 0 = Real.pi / 2
      ∧ angle_difference Real.pi (-(3 * Real.pi / 4)) (3 * Real.pi / 4) = Real.pi / 2 := by
  have hpi := Real.pi_pos
  have r1 : ∀ a1 a2 : ℝ, |a1 - a2| ≤ Real.pi → angle_difference Real.pi a1 a2 = a1 - a2 := by
    intro a1 a2 h
    simp only [angle_difference, gt_iff_lt, not_lt.mpr h, if_false]
  have r2 : ∀ a1 a2 : ℝ, |a1 - a2| > Real.pi → a1 < a2 →
      angle_difference Real.pi a1 a2 = (a1 + 2 * Real.pi) - a2 := by
    intro a1 a2 h h2
    simp only [angle_difference, h, h2, if_true]
  have r3 : ∀ a1 a2 : ℝ, |a1 - a2| > Real.pi → a1 ≥ a2 →
      angle_difference Real.pi a1 a2 = a1 - (a2 + 2 * Real.pi) := by
    intro a1 a2 h h2
    simp only [angle_difference, h, not_lt.mpr h2, if_true, if_false]
  refine ⟨r1, r2, r3, ?_, ?_, ?_⟩
  · rw [r1 0 0 (by simpa using hpi.le)]; ring
  · rw [r1 _ _ (by rw [abs_le]; constructor <;> linarith)]; ring
  · rw [r2 _ _ (by rw [gt_iff_lt, lt_abs]; right; linarith) (by linarith)]; ring

/-- The wrap rule of C5 at `a1 = 3π/4`, `a2 = -3π/4`: the raw difference `3π/2` exceeds
`π` and `a1 ≥ a2`, so `a2` is advanced and the result is `-π/2`. -/
theorem angle_difference_wrap_rule_witness :
    |3 * Real.pi / 4 - (-(3 * Real.pi / 4))| > Real.pi
      ∧ 3 * Real.pi / 4 ≥ -(3 * Real.pi / 4)
      ∧ angle_difference Real.pi (3 * Real.pi / 4) (-(3 * Real.pi / 4)) = -(Real.pi / 2) := by
  have hpi := Real.pi_pos
  have hgt : |3 * Real.pi / 4 - (-(3 * Real.pi / 4))| > Real.pi := by
    rw [gt_iff_lt, lt_abs]; left; linarith
  have hge : 3 * Real.pi / 4 ≥ -(3 * Real.pi / 4) := by linarith
  refine ⟨hgt, hge, ?_⟩
  rw [angle_difference_wrap_rule.2.2.1 _ _ hgt hge]
  ring

/-- C9: antisymmetry of the angle difference.  For all real `a1`, `a2` whose raw
difference is not on the boundary (`|a1 - a2| ≠ π`),
`angle_difference a1 a2 = -angle_difference a2 a1`. -/
theorem angle_difference_antisymm (a1 a2 : ℝ) (_h : |a1 - a2| ≠ Real.pi) :
    angle_difference Real.pi a1 a2 = -angle_difference Real.pi a2 a1 := by
  have hpi := Real.pi_pos
  rcases angle_difference_cases a1 a2 with ⟨hd, hr⟩ | ⟨hd, hr⟩ | ⟨hd1, hd2, hr⟩ <;>
    rcases angle_difference_cases a2 a1 with ⟨hd', hr'⟩ | ⟨hd', hr'⟩ | ⟨hd1', hd2', hr'⟩ <;>
    rw [hr, hr'] <;> linarith

/-- Antisymmetry (C9) at `a1 = -3π/4`, `a2 = 3π/4`, whose raw difference `-3π/2` is off
the boundary. -/
theorem angle_difference_antisymm_witness :
    |(-(3 * Real.pi / 4)) - 3 * Real.pi / 4| ≠ Real.pi
      ∧ angle_difference Real.pi (-(3 * Real.pi / 4)) (3 * Real.pi / 4)
          = -angle_difference Real.pi (3 * Real.pi / 4) (-(3 * Real.pi / 4)) := by
  have hpi := Real.pi_pos
  have hne : |(-(3 * Real.pi / 4)) - 3 * Real.pi / 4| ≠ Real.pi := by
    rw [abs_of_neg (by linarith)]
    intro h
    linarith
  exact ⟨hne, angle_difference_antisymm _ _ hne⟩

/-! ## Scalar normalisation -/

/-- C6, as stated, fails: `normalize 5 0 10 = 10`, `normalize (-1) 0 10 = 5` and
`normalize 20 0 10 = 15`, so the result is not the clamped value 5, 0, 10. -/
theorem normalize_is_not_clamp :
    normalize (5 : ℝ) 0 10 = 10 ∧ normalize (-1 : ℝ) 0 10 = 5 ∧ normalize (20 : ℝ) 0 10 = 15
      ∧ normalize (5 : ℝ) 0 10 ≠ 5 ∧ normalize (-1 : ℝ) 0 10 ≠ 0
      ∧ normalize (20 : ℝ) 0 10 ≠ 10 := by
  refine ⟨?_, ?_, ?_, ?_, ?_, ?_⟩ <;> norm_num [normalize]

/-- C6, as amended: `normalize` clamps `value` into `[min, max]` before its last step.
For `min ≤ max`, a value below `min` gives the result of `min`, a value above `max` gives
the result of `max`, and in general the result is that of the clamped value. -/
theorem normalize_clamps_first (value min max : ℝ) (h : min ≤ max) :
    (value < min → normalize value min max = normalize min min max)
      ∧ (value > max → normalize value min max = normalize max min max)
      ∧ normalize value min max
          = normalize (if value < min then min else if value > max then max else value)
              min max := by
  refine ⟨fun h1 => ?_, fun h2 => ?_, ?_⟩
  · simp [normalize, h1, not_lt.mpr h]
  · have h3 : ¬ value < min := not_lt.mpr (le_trans h (le_of_lt h2))
    simp [normalize, h2, h3, not_lt.mpr h]
  · by_cases h1 : value < min
    · simp [normalize, h1, not_lt.mpr h]
    · by_cases h2 : value > max
      · simp [normalize, h1, h2, not_lt.mpr h]
      · simp [normalize, h1, h2]

/-- The amended C6 at `value = -1`, `min = 0`, `max = 10`: the result is that of `min`. -/
theorem normalize_clamps_first_witness :
    (0 : ℝ) ≤ 10 ∧ normalize (-1 : ℝ) 0 10 = normalize (0 : ℝ) 0 10 :=
  ⟨by norm_num, (normalize_clamps_first (-1) 0 10 (by norm_num)).1 (by norm_num)⟩

/-! ## Special attitudes -/

/-- C7: identity attitude.  With roll = pitch = yaw = 0, `velocity_ned_to_body` returns
(forward, right, down) = (north, east, down), `velocity_body_to_ned` returns
(north, east, down) = (forward, right, down), and `offsets_to_frame` with angles
(0, 0, 0) is the identity on 3-vectors. -/
theorem identity_attitude :
    (∀ ned : mec_vehicle_velocity ℝ,
        velocity_ned_to_body Real.sin Real.cos ned ⟨0, 0, 0⟩
          = ⟨ned.north_m_s, ned.east_m_s, ned.down_m_s⟩)
      ∧ (∀ body : mec_vehicle_velocity_body ℝ,
        velocity_body_to_ned Real.sin Real.cos body ⟨0, 0, 0⟩
          = ⟨body.forward_m_s, body.right_m_s, body.down_m_s⟩)
      ∧ (∀ input : Vec3 ℝ, offsets_to_frame Real.sin Real.cos input ![0, 0, 0] = input) := by
  refine ⟨fun ned => ?_, fun body => ?_, fun input => ?_⟩
  · simp [velocity_ned_to_body, offsets_to_frame]
  · simp [velocity_body_to_ned, offsets_to_frame]
  · funext i
    fin_cases i <;> simp [offsets_to_frame]

/-- C8: yaw-only heading convention.  With roll = pitch = 0 and yaw `psi`,
`velocity_ned_to_body` sends (n, e, d) to forward = n cos psi + e sin psi,
right = -n sin psi + e cos psi, down = d; for yaw = π/2 the NED velocity (1, 0, 0)
becomes the body velocity (0, -1, 0). -/
theorem yaw_only_ned_to_body :
    (∀ psi n e d : ℝ,
        velocity_ned_to_body Real.sin Real.cos ⟨n, e, d⟩ ⟨0, 0, psi⟩
          = ⟨n * Real.cos psi + e * Real.sin psi, -n * Real.sin psi + e * Real.cos psi, d⟩)
      ∧ velocity_ned_to_body Real.sin Real.cos ⟨1, 0, 0⟩ ⟨0, 0, Real.pi / 2⟩ = ⟨0, -1, 0⟩ := by
  constructor
  · intro psi n e d
    simp [velocity_ned_to_body, offsets_to_frame]
    constructor <;> ring
  · simp [velocity_ned_to_body, offsets_to_frame]

/-! ## The two rotation code paths -/

/-- C10, evaluated on the code: for the input (1, 0, 0) and angles
(roll, pitch, yaw) = (π/2, 0, 0), `transform_frame` returns (0, 0, -1) while
`offsets_to_frame` returns (1, 0, 0), so the two outputs differ. -/
theorem transform_frame_vs_offsets_to_frame :
    transform_frame Real.sin Real.cos ![1, 0, 0] ![Real.pi / 2, 0, 0] = ![0, 0, -1]
      ∧ offsets_to_frame Real.sin Real.cos ![1, 0, 0] ![Real.pi / 2, 0, 0] = ![1, 0, 0]
      ∧ transform_frame Real.sin Real.cos ![1, 0, 0] ![Real.pi / 2, 0, 0]
          ≠ offsets_to_frame Real.sin Real.cos ![1, 0, 0] ![Real.pi / 2, 0, 0] := by
  have e1 : transform_frame Real.sin Real.cos ![1, 0, 0] ![Real.pi / 2, 0, 0]
      = ![0, 0, -1] := by
    funext i
    fin_cases i <;>
      simp [transform_frame, xrot_arr, yrot_arr, zrot_arr, Matrix.mul_fin_three, Matrix.mulVec,
        Matrix.vec3_dotProduct]
  have e2 : offsets_to_frame Real.sin Real.cos ![1, 0, 0] ![Real.pi / 2, 0, 0]
      = ![1, 0, 0] := by
    simp [offsets_to_frame]
  refine ⟨e1, e2, ?_⟩
  rw [e1, e2]
  intro h
  have h0 := congrFun h 0
  norm_num at h0

/-! ## Scalar normalisation, continued -/

/-- C11, evaluated on the code: `normalize 3 2 4 = 6`, which is above 1, and
`normalize (-7) (-10) (-6) = -15`, which is below -1, although `min ≤ max` in both
calls; the output is not between -1 and 1. -/
theorem normalize_leaves_unit_interval :
    normalize (3 : ℝ) 2 4 = 6 ∧ ¬ normalize (3 : ℝ) 2 4 ≤ 1
      ∧ normalize (-7 : ℝ) (-10) (-6) = -15 ∧ ¬ (-1 : ℝ) ≤ normalize (-7 : ℝ) (-10) (-6) := by
  refine ⟨?_, ?_, ?_, ?_⟩ <;> norm_num [normalize]

/-- C12: `normalize` only clamps and adds an offset.  For `min ≤ max`,
`normalize value min max = clamp value min max + (max + min) / 2`, so the result lies
between `min + (max + min) / 2` and `max + (max + min) / 2`; the half-range
`(max - min) / 2` does not occur in it. -/
theorem normalize_eq_clamp_add_offset (value min max : ℝ) (h : min ≤ max) :
    normalize value min max = spec_clamp value min max + (max + min) / 2
      ∧ min + (max + min) / 2 ≤ normalize value min max
      ∧ normalize value min max ≤ max + (max + min) / 2 := by
  by_cases h1 : value < min
  · have h2 : ¬ min > max := not_lt.mpr h
    simp only [normalize, spec_clamp, h1, h2, if_true, if_false]
    exact ⟨trivial, le_refl _, by linarith⟩
  · by_cases h2 : value > max
    · simp only [normalize, spec_clamp, h1, h2, if_true, if_false]
      exact ⟨trivial, by linarith, le_refl _⟩
    · simp only [normalize, spec_clamp, h1, h2, if_false]
      exact ⟨trivial, by linarith [not_lt.mp h1], by linarith [not_lt.mp h2]⟩

/-- C12 at `value = 7`, `min = 2`, `max = 4`: the clamp is 4, the offset 3, the result 7. -/
theorem normalize_eq_clamp_add_offset_witness :
    (2 : ℝ) ≤ 4 ∧ normalize (7 : ℝ) 2 4 = spec_clamp (7 : ℝ) 2 4 + (4 + 2) / 2
      ∧ spec_clamp (7 : ℝ) 2 4 = 4 :=
  ⟨by norm_num, (normalize_eq_clamp_add_offset 7 2 4 (by norm_num)).1,
    by norm_num [spec_clamp]⟩

/-- C19: inverted bounds.  For `min > max` the result of `normalize value min max` does
not depend on `value`: it is `max + (max + min) / 2`. -/
theorem normalize_inverted_bounds (value min max : ℝ) (h : min > max) :
    normalize value min max = max + (max + min) / 2 := by
  by_cases h1 : value < min
  · simp only [normalize, h1, h, if_true]
  · have h2 : value > max := lt_of_lt_of_le h (not_lt.mp h1)
    simp only [normalize, h1, h2, if_true, if_false]

/-- C19 at `min = 10`, `max = 0`: the values 3 and 25 both give `0 + (0 + 10) / 2 = 5`. -/
theorem normalize_inverted_bounds_witness :
    (10 : ℝ) > 0 ∧ normalize (3 : ℝ) 10 0 = 0 + (0 + 10) / 2
      ∧ normalize (25 : ℝ) 10 0 = 0 + (0 + 10) / 2 :=
  ⟨by norm_num, normalize_inverted_bounds 3 10 0 (by norm_num),
    normalize_inverted_bounds 25 10 0 (by norm_num)⟩

/-! ## Angle difference, continued -/

/-- C17: single-wrap bound.  If `|a1 - a2| ≤ 3π` then `|angle_difference a1 a2| ≤ π`,
and if `|a1 - a2| > 3π` then `|angle_difference a1 a2| > π`. -/
theorem angle_difference_single_wrap (a1 a2 : ℝ) :
    (|a1 - a2| ≤ 3 * Real.pi → |angle_difference Real.pi a1 a2| ≤ Real.pi)
      ∧ (|a1 - a2| > 3 * Real.pi → |angle_difference Real.pi a1 a2| > Real.pi) := by
  have hpi := Real.pi_pos
  rcases angle_difference_cases a1 a2 with ⟨hd, hr⟩ | ⟨hd, hr⟩ | ⟨hd1, hd2, hr⟩ <;> rw [hr]
  · constructor
    · intro h
      have h3 := abs_le.mp h
      exact abs_le.mpr ⟨by linarith [h3.1], by linarith⟩
    · intro h
      rcases lt_abs.mp h with h3 | h3
      · linarith
      · exact lt_abs.mpr (Or.inr (by linarith))
  · constructor
    · intro h
      have h3 := abs_le.mp h
      exact abs_le.mpr ⟨by linarith, by linarith [h3.2]⟩
    · intro h
      rcases lt_abs.mp h with h3 | h3
      · exact lt_abs.mpr (Or.inl (by linarith))
      · linarith
  · constructor
    · intro _
      exact abs_le.mpr ⟨hd1, hd2⟩
    · intro h
      rcases lt_abs.mp h with h3 | h3 <;> linarith

/-- C17 at raw difference `3π` (result `π`) and at raw difference `4π` (result `2π`). -/
theorem angle_difference_single_wrap_witness :
    |angle_difference Real.pi (3 * Real.pi) 0| ≤ Real.pi
      ∧ |angle_difference Real.pi (4 * Real.pi) 0| > Real.pi := by
  have hpi := Real.pi_pos
  refine ⟨(angle_difference_single_wrap (3 * Real.pi) 0).1 ?_,
    (angle_difference_single_wrap (4 * Real.pi) 0).2 ?_⟩
  · rw [sub_zero, abs_of_pos (by linarith)]
  · rw [sub_zero, abs_of_pos (by linarith)]
    linarith

/-- A value held in a `float` is rational, so the raw difference of two such values is
never exactly `π` or `-π`; equality in the test `fabs(b1) > M_PI` does not occur for
them. -/
theorem raw_difference_ne_pi (a1 a2 : ℚ) : |(a1 : ℝ) - (a2 : ℝ)| ≠ Real.pi := by
  intro h
  have hq : ((|a1 - a2| : ℚ) : ℝ) = Real.pi := by
    rw [← h]
    push_cast
    rfl
  exact irrational_pi.ne_rat _ hq.symm

/-! ## The chained single-axis path -/

/-- The output of `transform_frame` is the matrix `xrot * yrot * zrot` times the input. -/
theorem transform_frame_eq_mulVec {α : Type} [Field α] (sin cos : α → α)
    (frame1 angle : Vec3 α) :
    transform_frame sin cos frame1 angle
      = Matrix.mulVec (transform_frame_matrix sin cos angle) frame1 := by
  have hv : (![frame1 0, frame1 1, frame1 2] : Vec3 α) = frame1 := by
    funext i
    fin_cases i <;> rfl
  funext i
  fin_cases i <;> simp only [transform_frame, transform_frame_matrix, hv] <;> rfl

/-- The matrix applied by `transform_frame` is `Rx(pitch) * Ry(roll) * Rz(yaw)`: the x
rotation is built from `angle[1]`, the y rotation from `angle[0]`, and the z rotation acts
on the vector first. -/
theorem transform_frame_matrix_eq_spec {α : Type} [Field α] (sin cos : α → α)
    (angle : Vec3 α) :
    transform_frame_matrix sin cos angle
      = spec_Rx sin cos (angle 1) * spec_Ry sin cos (angle 0) * spec_Rz sin cos (angle 2) :=
  rfl

/-- The x rotation of `transform_frame` is orthogonal with determinant 1. -/
theorem xrot_arr_orthogonal (angle : Vec3 ℝ) :
    xrot_arr Real.sin Real.cos angle * (xrot_arr Real.sin Real.cos angle).transpose = 1
      ∧ (xrot_arr Real.sin Real.cos angle).det = 1 := by
  have hsc := Real.sin_sq_add_cos_sq (angle 1)
  have ht : (xrot_arr Real.sin Real.cos angle).transpose
      = !![1, 0, 0;
           0, Real.cos (angle 1), Real.sin (angle 1);
           0, -Real.sin (angle 1), Real.cos (angle 1)] := by
    ext i j
    fin_cases i <;> fin_cases j <;> rfl
  constructor
  · rw [ht, Matrix.one_fin_three]
    simp only [xrot_arr, Matrix.mul_fin_three]
    rw [← Matrix.ext_iff]
    simp [Fin.forall_fin_succ]
    and_intros <;> nlinarith
  · simp [xrot_arr, Matrix.det_fin_three]
    nlinarith

/-- The y rotation of `transform_frame` is orthogonal with determinant 1. -/
theorem yrot_arr_orthogonal (angle : Vec3 ℝ) :
    yrot_arr Real.sin Real.cos angle * (yrot_arr Real.sin Real.cos angle).transpose = 1
      ∧ (yrot_arr Real.sin Real.cos angle).det = 1 := by
  have hsc := Real.sin_sq_add_cos_sq (angle 0)
  have ht : (yrot_arr Real.sin Real.cos angle).transpose
      = !![Real.cos (angle 0), 0, -Real.sin (angle 0);
           0, 1, 0;
           Real.sin (angle 0), 0, Real.cos (angle 0)] := by
    ext i j
    fin_cases i <;> fin_cases j <;> rfl
  constructor
  · rw [ht, Matrix.one_fin_three]
    simp only [yrot_arr, Matrix.mul_fin_three]
    rw [← Matrix.ext_iff]
    simp [Fin.forall_fin_succ]
    and_intros <;> nlinarith
  · simp [yrot_arr, Matrix.det_fin_three]
    nlinarith

/-- The z rotation of `transform_frame` is orthogonal with determinant 1. -/
theorem zrot_arr_orthogonal (angle : Vec3 ℝ) :
    zrot_arr Real.sin Real.cos angle * (zrot_arr Real.sin Real.cos angle).transpose = 1
      ∧ (zrot_arr Real.sin Real.cos angle).det = 1 := by
  have hsc := Real.sin_sq_add_cos_sq (angle 2)
  have ht : (zrot_arr Real.sin Real.cos angle).transpose
      = !![Real.cos (angle 2), Real.sin (angle 2), 0;
           -Real.sin (angle 2), Real.cos (angle 2), 0;
           0, 0, 1] := by
    ext i j
    fin_cases i <;> fin_cases j <;> rfl
  constructor
  · rw [ht, Matrix.one_fin_three]
    simp only [zrot_arr, Matrix.mul_fin_three]
    rw [← Matrix.ext_iff]
    simp [Fin.forall_fin_succ]
    and_intros <;> nlinarith
  · simp [zrot_arr, Matrix.det_fin_three]
    nlinarith

/-- C13, evaluated on the code: for angles (roll, pitch, yaw) = (0, π/2, 0) and the input
(0, 1, 0), `transform_frame` returns (0, 0, 1), while `Rz(yaw) * Ry(pitch) * Rx(roll)`
leaves this vector at (0, 1, 0); for angles (π/2, π/2, π/2) and the input (1, 0, 0),
`transform_frame` returns (0, 0, 1), while `Rz(yaw) * Ry(pitch) * Rx(roll)` gives
(0, 0, -1). -/
theorem transform_frame_vs_spec_rotation :
    transform_frame Real.sin Real.cos ![0, 1, 0] ![0, Real.pi / 2, 0] = ![0, 0, 1]
      ∧ Matrix.mulVec (spec_rotation Real.sin Real.cos ![0, Real.pi / 2, 0]) ![0, 1, 0]
          = ![0, 1, 0]
      ∧ transform_frame Real.sin Real.cos ![1, 0, 0] ![Real.pi / 2, Real.pi / 2, Real.pi / 2]
          = ![0, 0, 1]
      ∧ Matrix.mulVec
            (spec_rotation Real.sin Real.cos ![Real.pi / 2, Real.pi / 2, Real.pi / 2])
            ![1, 0, 0]
          = ![0, 0, -1] := by
  refine ⟨?_, ?_, ?_, ?_⟩
  · funext i
    fin_cases i <;>
      simp [transform_frame, xrot_arr, yrot_arr, zrot_arr, Matrix.mul_fin_three, Matrix.mulVec,
        Matrix.vec3_dotProduct]
  · funext i
    fin_cases i <;>
      simp [spec_rotation, spec_Rx, spec_Ry, spec_Rz, Matrix.mul_fin_three, Matrix.mulVec,
        Matrix.vec3_dotProduct]
  · funext i
    fin_cases i <;>
      simp [transform_frame, xrot_arr, yrot_arr, zrot_arr, Matrix.mul_fin_three, Matrix.mulVec,
        Matrix.vec3_dotProduct]
  · funext i
    fin_cases i <;>
      simp [spec_rotation, spec_Rx, spec_Ry, spec_Rz, Matrix.mul_fin_three, Matrix.mulVec,
        Matrix.vec3_dotProduct]

/-- C14: for every angle triple the matrix `M = xrot * yrot * zrot` applied by
`transform_frame` satisfies `M * Mᵀ = 1` and `det M = 1`, and `transform_frame` preserves
the Euclidean length: the squares of the three outputs add up to the squares of the three
inputs. -/
theorem transform_frame_orthogonal (frame1 angle : Vec3 ℝ) :
    transform_frame_matrix Real.sin Real.cos angle
        * (transform_frame_matrix Real.sin Real.cos angle).transpose = 1
      ∧ (transform_frame_matrix Real.sin Real.cos angle).det = 1
      ∧ transform_frame Real.sin Real.cos frame1 angle 0 ^ 2
          + transform_frame Real.sin Real.cos frame1 angle 1 ^ 2
          + transform_frame Real.sin Real.cos frame1 angle 2 ^ 2
        = frame1 0 ^ 2 + frame1 1 ^ 2 + frame1 2 ^ 2 := by
  obtain ⟨hx, hxd⟩ := xrot_arr_orthogonal angle
  obtain ⟨hy, hyd⟩ := yrot_arr_orthogonal angle
  obtain ⟨hz, hzd⟩ := zrot_arr_orthogonal angle
  have horth : transform_frame_matrix Real.sin Real.cos angle
      * (transform_frame_matrix Real.sin Real.cos angle).transpose = 1 := by
    unfold transform_frame_matrix
    rw [Matrix.transpose_mul, Matrix.transpose_mul]
    calc xrot_arr Real.sin Real.cos angle * yrot_arr Real.sin Real.cos angle
            * zrot_arr Real.sin Real.cos angle
            * ((zrot_arr Real.sin Real.cos angle).transpose
              * ((yrot_arr Real.sin Real.cos angle).transpose
                * (xrot_arr Real.sin Real.cos angle).transpose))
        = xrot_arr Real.sin Real.cos angle * (yrot_arr Real.sin Real.cos angle
            * (zrot_arr Real.sin Real.cos angle * (zrot_arr Real.sin Real.cos angle).transpose)
            * (yrot_arr Real.sin Real.cos angle).transpose)
            * (xrot_arr Real.sin Real.cos angle).transpose := by
          simp only [Matrix.mul_assoc]
      _ = 1 := by rw [hz, Matrix.mul_one, hy, Matrix.mul_one, hx]
  have hdet : (transform_frame_matrix Real.sin Real.cos angle).det = 1 := by
    unfold transform_frame_matrix
    rw [Matrix.det_mul, Matrix.det_mul, hxd, hyd, hzd]
    norm_num
  refine ⟨horth, hdet, ?_⟩
  have horth2 : (transform_frame_matrix Real.sin Real.cos angle).transpose
      * transform_frame_matrix Real.sin Real.cos angle = 1 :=
    Matrix.mul_eq_one_comm.mp horth
  have hdot : Matrix.dotProduct
      (Matrix.mulVec (transform_frame_matrix Real.sin Real.cos angle) frame1)
      (Matrix.mulVec (transform_frame_matrix Real.sin Real.cos angle) frame1)
        = Matrix.dotProduct frame1 frame1 := by
    rw [Matrix.dotProduct_mulVec, ← Matrix.vecMul_transpose, Matrix.vecMul_vecMul, horth2,
      Matrix.vecMul_one]
  rw [Matrix.vec3_dotProduct, Matrix.vec3_dotProduct, ← transform_frame_eq_mulVec] at hdot
  linarith

/-! ## Single-axis round trips -/

/-- C15: yaw-only round trip.  For an attitude with roll = pitch = 0 and any yaw `psi`,
NED -> body -> NED returns the NED velocity it started from, and body -> NED -> body
returns the body velocity it started from. -/
theorem yaw_only_round_trip (psi : ℝ) :
    (∀ V : mec_vehicle_velocity ℝ,
        velocity_body_to_ned Real.sin Real.cos
          (velocity_ned_to_body Real.sin Real.cos V ⟨0, 0, psi⟩) ⟨0, 0, psi⟩ = V)
      ∧ (∀ V : mec_vehicle_velocity_body ℝ,
        velocity_ned_to_body Real.sin Real.cos
          (velocity_body_to_ned Real.sin Real.cos V ⟨0, 0, psi⟩) ⟨0, 0, psi⟩ = V) := by
  have hsc := Real.sin_sq_add_cos_sq psi
  constructor
  · rintro ⟨n, e, d⟩
    simp [velocity_body_to_ned, velocity_ned_to_body, offsets_to_frame]
    constructor
    · linear_combination n * hsc
    · linear_combination e * hsc
  · rintro ⟨f, r, d⟩
    simp [velocity_body_to_ned, velocity_ned_to_body, offsets_to_frame]
    constructor
    · linear_combination f * hsc
    · linear_combination r * hsc

/-- C16: roll-only round trip.  For an attitude with pitch = yaw = 0 and roll `phi`,
NED -> body -> NED sends (n, e, d) to (n, e cos(2 phi), d cos(2 phi)); for
`phi = π/4` the east and down components become 0. -/
theorem roll_only_round_trip (phi n e d : ℝ) :
    velocity_body_to_ned Real.sin Real.cos
        (velocity_ned_to_body Real.sin Real.cos ⟨n, e, d⟩ ⟨phi, 0, 0⟩) ⟨phi, 0, 0⟩
      = ⟨n, e * Real.cos (2 * phi), d * Real.cos (2 * phi)⟩
    ∧ velocity_body_to_ned Real.sin Real.cos
        (velocity_ned_to_body Real.sin Real.cos ⟨n, e, d⟩ ⟨Real.pi / 4, 0, 0⟩)
        ⟨Real.pi / 4, 0, 0⟩
      = ⟨n, 0, 0⟩ := by
  have key : ∀ a : ℝ, velocity_body_to_ned Real.sin Real.cos
        (velocity_ned_to_body Real.sin Real.cos ⟨n, e, d⟩ ⟨a, 0, 0⟩) ⟨a, 0, 0⟩
      = ⟨n, e * Real.cos (2 * a), d * Real.cos (2 * a)⟩ := by
    intro a
    simp [velocity_body_to_ned, velocity_ned_to_body, offsets_to_frame, Real.cos_two_mul']
    constructor <;> ring
  refine ⟨key phi, ?_⟩
  rw [key]
  have h0 : Real.cos (2 * (Real.pi / 4)) = 0 := by
    rw [show 2 * (Real.pi / 4) = Real.pi / 2 by ring, Real.cos_pi_div_two]
  rw [h0, mul_zero, mul_zero]

end Mec
